import Mathlib

/-!
Shallow embedding of the grpc-web-ts wire-format codec
(src/encoder.ts, src/writer.ts, src/reader.ts, src/constants.ts).

Modelling conventions, used consistently below:
* a JS `number` holding an integer is modelled as `Int` (or `Nat` where the
  source value is provably non-negative); JS 32-bit bitwise operators
  (`&`, `|`, `^`, `<<`, `>>`, `>>>`) are modelled by the `js*` helpers,
  which apply the ECMAScript ToInt32/ToUint32 truncation explicitly;
* a JS `bigint` is modelled as `Int` with exact arithmetic
  (`x & 0x7fn` = `Int.emod x 128`, `x >> 7n` = `Int.ediv x 128`,
  both matching two-complement semantics of BigInt);
* a `number[]` buffer is `List Int` (the source can and does push
  negative numbers into it); a `Uint8Array` is `List Nat`;
* a thrown exception is `Except.error`; reading `undefined` from an
  out-of-range index is modelled per use site following the ECMAScript
  coercions that the source then applies to it (see comments).
-/

/-- Error type of thrown JS exceptions (the message text). -/
abbrev Err := String

/-- ECMAScript ToUint32 of an integral number. -/
def toUint32 (x : Int) : Int := x.emod (2 ^ 32)

/-- ECMAScript ToInt32 of an integral number. -/
def toInt32 (x : Int) : Int :=
  let m := x.emod (2 ^ 32)
  if m < 2 ^ 31 then m else m - 2 ^ 32

/-- JS 32-bit bitwise and on integral numbers. -/
def jsAnd (a b : Int) : Int :=
  toInt32 (((toUint32 a).toNat &&& (toUint32 b).toNat : Nat) : Int)

/-- JS 32-bit bitwise or on integral numbers. -/
def jsOr (a b : Int) : Int :=
  toInt32 (((toUint32 a).toNat ||| (toUint32 b).toNat : Nat) : Int)

/-- JS 32-bit bitwise xor on integral numbers. -/
def jsXor (a b : Int) : Int :=
  toInt32 (((toUint32 a).toNat ^^^ (toUint32 b).toNat : Nat) : Int)

/-- JS `a << k` on integral numbers (result truncated to signed 32 bit). -/
def jsShl (a : Int) (k : Nat) : Int := toInt32 (a * 2 ^ k)

/-- JS signed shift `a >> k` on integral numbers (arithmetic, on ToInt32). -/
def jsShrS (a : Int) (k : Nat) : Int := Int.ediv (toInt32 a) (2 ^ k)

/-- JS unsigned shift `a >>> k` on integral numbers (on ToUint32). -/
def jsShrU (a : Int) (k : Nat) : Int := Int.ediv (toUint32 a) (2 ^ k)

/-- Reading `bytes[i]` from a `Uint8Array`: `none` models `undefined`. -/
def getB (bytes : List Nat) (i : Int) : Option Nat :=
  if 0 ≤ i then bytes[i.toNat]? else none

/-- JS `y & m` where `y` is a byte read that may be `undefined`
(ToInt32 of NaN is 0, so an undefined read contributes 0). -/
def byteAnd (y : Option Nat) (m : Nat) : Int :=
  match y with
  | some b => ((b &&& m : Nat) : Int)
  | none => 0

/-- JS `y < m` where `y` may be `undefined` (NaN comparisons are false). -/
def byteLt (y : Option Nat) (m : Nat) : Bool :=
  match y with
  | some b => b < m
  | none => false

/-- JS `y >= m` where `y` may be `undefined` (NaN comparisons are false). -/
def byteGe (y : Option Nat) (m : Nat) : Bool :=
  match y with
  | some b => m ≤ b
  | none => false

/-!
Byte-sequence producing loops of the encoder, factored out as list-valued
functions (the buffer push order is the list order).
-/

/-- Loop of `BinaryEncoder.UnsignedVarint` (src/encoder.ts lines 56-62):
`while (v > 127n) { push(Number((v & 0x7fn) | 0x80n)); v = v >> 7n }`
then `push(Number(v))`, on a non-negative bigint. -/
def uvarintBytes (v : Nat) : List Nat :=
  if 127 < v then ((v &&& 0x7f) ||| 0x80) :: uvarintBytes (v >>> 7) else [v]
termination_by v
decreasing_by
  simp only [Nat.shiftRight_eq_div_pow]
  exact Nat.div_lt_self (by omega) (by norm_num)

/-- Loop of `BinaryEncoder.UnsignedVarint32` (src/encoder.ts lines 20-26):
`while (value > 127) { push((value & 0x7f) | 0x80); value = value >>> 7 }`
then `push(value)`. The value is a non-negative integral JS number; `&` and
`>>>` operate on its 32-bit truncation, modelled by the explicit `% 2 ^ 32`. -/
def uvarint32Bytes (v : Nat) : List Nat :=
  if 127 < v then
    (((v % 2 ^ 32) &&& 0x7f) ||| 0x80) :: uvarint32Bytes ((v % 2 ^ 32) >>> 7)
  else [v]
termination_by v
decreasing_by
  simp only [Nat.shiftRight_eq_div_pow]
  calc v % 2 ^ 32 / 2 ^ 7 ≤ v / 2 ^ 7 :=
        Nat.div_le_div_right (Nat.mod_le v (2 ^ 32))
    _ < v := Nat.div_lt_self (by omega) (by norm_num)

namespace BinaryEncoder

/-- `BinaryEncoder.UnsignedVarint32` (src/encoder.ts lines 20-26). -/
def UnsignedVarint32 (buffer : List Int) (value : Nat) : List Int :=
  buffer ++ (uvarint32Bytes value).map Int.ofNat

/-- `BinaryEncoder.Varint32` (src/encoder.ts lines 32-49).
For `v >= 0` it delegates to `UnsignedVarint32`.  Otherwise the source runs
`for (i = 0; i < 4; i++) { push((v & 0x7f) | 0x80); v = v >> 7 }` with a
signed shift, then `push(v)` and `push(1)`.  `(v & 0x7f) | 0x80` on a
negative int32 is `v.emod 128 + 128`, and `v >> 7` is floor division,
`Int.ediv (toInt32 v) 128`. -/
def Varint32 (buffer : List Int) (v : Int) : List Int :=
  if 0 ≤ v then UnsignedVarint32 buffer v.toNat
  else
    let x0 := toInt32 v
    let x1 := Int.ediv x0 (2 ^ 7)
    let x2 := Int.ediv x1 (2 ^ 7)
    let x3 := Int.ediv x2 (2 ^ 7)
    let x4 := Int.ediv x3 (2 ^ 7)
    buffer ++
      [x0.emod 128 + 128, x1.emod 128 + 128, x2.emod 128 + 128,
        x3.emod 128 + 128, x4, 1]

/-- `BinaryEncoder.UnsignedVarint` (src/encoder.ts lines 56-62); the bigint
argument is non-negative at every call site modelled here. -/
def UnsignedVarint (buffer : List Int) (v : Nat) : List Int :=
  buffer ++ (uvarintBytes v).map Int.ofNat

/-- Loop of `BinaryEncoder.Varint` for a negative bigint (src/encoder.ts
lines 76-79): nine times `push(Number((v & 0x7fn) | 0x80n)); v = v >> 7n`. -/
def varintNegBytes : Nat → Int → List Int
  | 0, _ => []
  | n + 1, v => (v.emod 128 + 128) :: varintNegBytes n (Int.ediv v (2 ^ 7))

/-- `BinaryEncoder.Varint` (src/encoder.ts lines 69-83): the unsigned form
for `v >= 0n`, otherwise nine continuation bytes followed by `push(1)`. -/
def Varint (buffer : List Int) (v : Int) : List Int :=
  if 0 ≤ v then UnsignedVarint buffer v.toNat
  else buffer ++ varintNegBytes 9 v ++ [1]

/-- `BinaryEncoder.Zigzag32` (src/encoder.ts lines 89-91):
`UnsignedVarint32(((value << 1) ^ (value >> 31)) >>> 0)`. -/
def Zigzag32 (buffer : List Int) (value : Int) : List Int :=
  UnsignedVarint32 buffer (toUint32 (jsXor (jsShl value 1) (jsShrS value 31))).toNat

/-- `BinaryEncoder.Zigzag64` (src/encoder.ts lines 98-100):
`Varint((x << 1n) ^ (x >> 63n))` on bigints (`<<`/`>>` are exact,
`>>` is an arithmetic shift, hence floor division). -/
def Zigzag64 (buffer : List Int) (x : Int) : List Int :=
  Varint buffer (Int.xor (x * 2 ^ 1) (Int.ediv x (2 ^ 63)))

/-- `BinaryEncoder.Bool` (src/encoder.ts lines 149-151). -/
def Bool (buffer : List Int) (value : Bool) : List Int :=
  buffer ++ [if value then 1 else 0]

/-- `BinaryEncoder.Enum` (src/encoder.ts lines 156-158). -/
def Enum (buffer : List Int) (value : Int) : List Int :=
  Varint32 buffer value

/-- `BinaryEncoder.Bytes` (src/encoder.ts lines 163-165):
`this.buffer.push.apply(bytes)` calls `Array.prototype.push` with `bytes`
(the `Uint8Array`) as its `this` argument and an empty argument list.
With no elements to append, `push` still unconditionally sets the
`length` property of its `this`; on a typed array `length` is a read-only
accessor, so the call throws a TypeError.  Nothing is ever appended to
`this.buffer`, which the thrown exception leaves unchanged. -/
def Bytes (buffer : List Int) (bytes : List Nat) : Except Err (List Int) :=
  let _ := buffer
  let _ := bytes
  .error "TypeError"

end BinaryEncoder

/-- Floor of the base-2 logarithm, computed by structural recursion on a
fuel bound (any fuel at least the bit length gives the same value) so
that concrete values reduce. -/
def log2floor : Nat → Nat → Nat
  | 0, _ => 0
  | f + 1, n => if n < 2 then 0 else log2floor f (n / 2) + 1

/-- Rounding of a non-negative integer to the nearest IEEE-754 binary64
value (round to nearest, ties to even), as JS number arithmetic performs
on an integer result: the identity below `2 ^ 53`, otherwise the value is
rounded to 53 significant bits. -/
def flDouble (n : Nat) : Nat :=
  if n < 2 ^ 53 then n
  else
    let unit := 2 ^ (log2floor n n - 52)
    let q := n / unit
    let r := n % unit
    if 2 * r < unit then q * unit
    else if unit < 2 * r then (q + 1) * unit
    else if q % 2 = 0 then q * unit
    else (q + 1) * unit

/-!
The writer (src/writer.ts).  Its only state is the encoder buffer.
-/

/-- State of a `BinaryWriter`: the underlying encoder buffer. -/
structure BinaryWriter where
  buffer : List Int
deriving DecidableEq

/-- Wire-type constants (src/constants.ts `WireType`), as the JS numbers
they are compared with. -/
def WireType.VARINT : Int := 0

/-- Wire type FIXED64 = 1. -/
def WireType.FIXED64 : Int := 1

/-- Wire type DELIMITED = 2. -/
def WireType.DELIMITED : Int := 2

/-- Wire type START_GROUP = 3 (reserved). -/
def WireType.START_GROUP : Int := 3

/-- Wire type END_GROUP = 4 (reserved). -/
def WireType.END_GROUP : Int := 4

/-- Wire type FIXED32 = 5. -/
def WireType.FIXED32 : Int := 5

/-- `BinaryWriter.Tag` (src/writer.ts lines 64-71): if the field number is
an integer `>= 1`, emit the varint of `field * 8 + wireType`, otherwise
throw.  The sum is computed in JS double arithmetic: `field * 8` is an
exact power-of-two scaling for every representable field number, and the
addition of the wire type rounds the result once to 53 significant bits,
modelled by `flDouble`.  Field numbers are modelled as `Nat` (always
integral); the integrality test `field == Math.floor(field)` is therefore
always true. -/
def BinaryWriter.Tag (w : BinaryWriter) (field : Nat) (wireType : Nat) :
    Except Err BinaryWriter :=
  if 1 ≤ field then
    .ok ⟨BinaryEncoder.UnsignedVarint32 w.buffer (flDouble (field * 8 + wireType))⟩
  else .error "Field number is Invalid"

/-- `BinaryWriter.appendUint8Array` (src/writer.ts lines 23-25):
`this.encoder.Buffer.push(...arr)`. -/
def BinaryWriter.appendUint8Array (w : BinaryWriter) (arr : List Nat) :
    BinaryWriter :=
  ⟨w.buffer ++ arr.map Int.ofNat⟩

/-- `BinaryWriter.beginDelimited` (src/writer.ts lines 31-34): emit the
DELIMITED tag and return the current buffer length as the bookmark. -/
def BinaryWriter.beginDelimited (w : BinaryWriter) (field : Nat) :
    Except Err (Nat × BinaryWriter) :=
  match BinaryWriter.Tag w field 2 with
  | .error e => .error e
  | .ok w1 => .ok (w1.buffer.length, w1)

/-- Loop of `BinaryWriter.endDelimited` (src/writer.ts lines 45-48):
`while (messageLength > 127) { tmp.push((messageLength & 0x7f) | 0x80);
messageLength = messageLength >>> 7 }`.  Only continuation bytes are
pushed; the loop never emits the final (sub-128) byte. -/
def endDelimitedTmp (v : Nat) : List Nat :=
  if 127 < v then
    (((v % 2 ^ 32) &&& 0x7f) ||| 0x80) :: endDelimitedTmp ((v % 2 ^ 32) >>> 7)
  else []
termination_by v
decreasing_by
  simp only [Nat.shiftRight_eq_div_pow]
  calc v % 2 ^ 32 / 2 ^ 7 ≤ v / 2 ^ 7 :=
        Nat.div_le_div_right (Nat.mod_le v (2 ^ 32))
    _ < v := Nat.div_lt_self (by omega) (by norm_num)

/-- `BinaryWriter.endDelimited` (src/writer.ts lines 40-54): compute
`messageLength = length - bookmark`; if non-negative, splice either the
continuation bytes produced by the loop (length above 127) or the single
byte `messageLength` into the buffer at the bookmark.  A negative length
falls through and the buffer is unchanged. -/
def BinaryWriter.endDelimited (w : BinaryWriter) (bookmark : Nat) :
    BinaryWriter :=
  let messageLength : Int := (w.buffer.length : Int) - (bookmark : Int)
  if 0 ≤ messageLength then
    if 127 < messageLength then
      ⟨w.buffer.take bookmark ++
        (endDelimitedTmp messageLength.toNat).map Int.ofNat ++
        w.buffer.drop bookmark⟩
    else
      ⟨w.buffer.take bookmark ++ [messageLength] ++ w.buffer.drop bookmark⟩
  else w

/-- `BinaryWriter.Sint64` (src/writer.ts lines 157-162): when the value is
inside `[-2^63, 2^63)` emit the VARINT tag and the zigzag payload; an
out-of-range value falls through the `if` and the method returns without
writing and without throwing. -/
def BinaryWriter.Sint64 (w : BinaryWriter) (field : Nat) (value : Int) :
    Except Err BinaryWriter :=
  if -(2 ^ 63) ≤ value ∧ value < 2 ^ 63 then
    match BinaryWriter.Tag w field 0 with
    | .error e => .error e
    | .ok w1 => .ok ⟨BinaryEncoder.Zigzag64 w1.buffer value⟩
  else .ok w

/-- `BinaryWriter.PackedInt32` (src/writer.ts lines 557-563): open a
delimited scope, encode each element with `encoder.Varint32`, close the
scope. -/
def BinaryWriter.PackedInt32 (w : BinaryWriter) (field : Nat)
    (value : List Int) : Except Err BinaryWriter :=
  match BinaryWriter.beginDelimited w field with
  | .error e => .error e
  | .ok (bookmark, w1) =>
    .ok (BinaryWriter.endDelimited ⟨value.foldl BinaryEncoder.Varint32 w1.buffer⟩ bookmark)

/-!
The reader (src/reader.ts).  The source field `end` is a reserved word in
Lean and is modelled as `limit`; `length` is the stream-framing field.
-/

/-- State of a `BinaryReader` (src/reader.ts lines 6-19).  `limit` models
the source field `end`. -/
structure BinaryReader where
  bytes : List Nat
  cursor : Int
  limit : Int
  length : Int
  nextField : Option Int
  nextWireType : Option Int
deriving DecidableEq

/-- The `BinaryReader` constructor (src/reader.ts lines 16-19):
cursor 0, `end = src.length`, `length = 0`, no current field. -/
def mkReader (src : List Nat) : BinaryReader :=
  ⟨src, 0, (src.length : Int), 0, none, none⟩

/-- `BinaryReader.advance` (src/reader.ts lines 28-33): add `count` to the
cursor and throw when it passes `end`. -/
def BinaryReader.advance (r : BinaryReader) (count : Int) :
    Except Err BinaryReader :=
  let c := r.cursor + count
  if r.limit < c then .error "Advancing cursor out of bounds"
  else .ok { r with cursor := c }

/-- One iteration of the `Header` loop (src/reader.ts lines 44-47):
`l = (l << 8) + bytes[cursor]; advance(1)`.  `l << 8` is the 32-bit JS
shift.  An out-of-range read is modelled as 0: in every state with
`end <= bytes.length` the `advance(1)` that follows such a read throws,
so the value never escapes. -/
def headerStep (r : BinaryReader) (l : Int) :
    Except Err (Int × BinaryReader) :=
  let b := (getB r.bytes r.cursor).getD 0
  match BinaryReader.advance r 1 with
  | .error e => .error e
  | .ok r1 => .ok (jsShl l 8 + (b : Int), r1)

/-- `BinaryReader.Header` (src/reader.ts lines 38-53): at the end of the
block return false; otherwise run five `headerStep` iterations, return
false when the resulting length is zero, and otherwise add `l + 5` to the
stream-framing `length`. -/
def BinaryReader.Header (r : BinaryReader) :
    Except Err (Bool × BinaryReader) :=
  if r.limit ≤ r.cursor then .ok (false, r)
  else
    match headerStep r 0 with
    | .error e => .error e
    | .ok (l1, r1) =>
      match headerStep r1 l1 with
      | .error e => .error e
      | .ok (l2, r2) =>
        match headerStep r2 l2 with
        | .error e => .error e
        | .ok (l3, r3) =>
          match headerStep r3 l3 with
          | .error e => .error e
          | .ok (l4, r4) =>
            match headerStep r4 l4 with
            | .error e => .error e
            | .ok (l5, r5) =>
              if l5 = 0 then .ok (false, r5)
              else .ok (true, { r5 with length := r5.length + l5 + 5 })

/-- Tail of `BinaryReader.Varint32` past the fifth byte (src/reader.ts
lines 320-335): after `advance(5)`, the conjunction
`bytes[cursor++] >= 128 && ... (five times)` reads and advances until a
byte below 128 (or an undefined read, which compares false) stops it; if
all five reads have the high bit set the varint is too long.  Finally the
cursor is checked against `end` and the (possibly negative) 32-bit `x`
from the first five bytes is returned. -/
def varint32Tail (r : BinaryReader) (x : Int) :
    Except Err (Int × BinaryReader) :=
  match BinaryReader.advance r 5 with
  | .error e => .error e
  | .ok r5 =>
    let stop : Nat :=
      if ¬ (byteGe (getB r5.bytes r5.cursor) 128) then 1
      else if ¬ (byteGe (getB r5.bytes (r5.cursor + 1)) 128) then 2
      else if ¬ (byteGe (getB r5.bytes (r5.cursor + 2)) 128) then 3
      else if ¬ (byteGe (getB r5.bytes (r5.cursor + 3)) 128) then 4
      else 5
    if byteGe (getB r5.bytes r5.cursor) 128 ∧
        byteGe (getB r5.bytes (r5.cursor + 1)) 128 ∧
        byteGe (getB r5.bytes (r5.cursor + 2)) 128 ∧
        byteGe (getB r5.bytes (r5.cursor + 3)) 128 ∧
        byteGe (getB r5.bytes (r5.cursor + 4)) 128 then
      .error "Varint32 to long"
    else
      let c := r5.cursor + (stop : Int)
      if (c : Int) > r5.limit then .error "Decoder cursor out of bounds"
      else .ok (x, { r5 with cursor := c })

/-- `BinaryReader.Varint32` (src/reader.ts lines 278-336), fully unrolled
as in the source.  Bytes are combined with the 32-bit JS operators; the
fifth in-range byte keeps only its low four bits and the result is
reinterpreted with `>>> 0`, while the overflow-tolerant tail returns the
signed 32-bit accumulator unchanged. -/
def BinaryReader.Varint32 (r : BinaryReader) :
    Except Err (Int × BinaryReader) :=
  let y0 := getB r.bytes r.cursor
  let x0 := byteAnd y0 0x7f
  if byteLt y0 128 then
    match BinaryReader.advance r 1 with
    | .error e => .error e
    | .ok r1 => .ok (x0, r1)
  else
    let y1 := getB r.bytes (r.cursor + 1)
    let x1 := jsOr x0 (jsShl (byteAnd y1 0x7f) 7)
    if byteLt y1 128 then
      match BinaryReader.advance r 2 with
      | .error e => .error e
      | .ok r2 => .ok (x1, r2)
    else
      let y2 := getB r.bytes (r.cursor + 2)
      let x2 := jsOr x1 (jsShl (byteAnd y2 0x7f) 14)
      if byteLt y2 128 then
        match BinaryReader.advance r 3 with
        | .error e => .error e
        | .ok r3 => .ok (x2, r3)
      else
        let y3 := getB r.bytes (r.cursor + 3)
        let x3 := jsOr x2 (jsShl (byteAnd y3 0x7f) 21)
        if byteLt y3 128 then
          match BinaryReader.advance r 4 with
          | .error e => .error e
          | .ok r4 => .ok (x3, r4)
        else
          let y4 := getB r.bytes (r.cursor + 4)
          let x4 := jsOr x3 (jsShl (byteAnd y4 0x0f) 28)
          if byteLt y4 128 then
            match BinaryReader.advance r 5 with
            | .error e => .error e
            | .ok r5 => .ok (toUint32 x4, r5)
          else varint32Tail r x4

/-- `BinaryReader.sign` (src/reader.ts lines 341-347): `BigInt.asIntN(64, v)`
or `BigInt.asUintN(64, v)`; the accumulator `v` is always non-negative. -/
def signView (v : Nat) (s : Bool) : Int :=
  let m : Nat := v % 2 ^ 64
  if s then (if m < 2 ^ 63 then (m : Int) else (m : Int) - 2 ^ 64) else (m : Int)

/-- The unrolled ten-byte loop of `BinaryReader.Varint` (src/reader.ts
lines 352-432), written once with the byte index `k`; instantiating
`k = 0 .. 9` gives the ten source blocks literally.  For `k < 9` the block
is: read `y = BigInt(bytes[cursor + k])` (undefined throws a TypeError),
`v |= y << 7k`, return after `advance(k + 1)` when `y < 0x80n`, else
`v -= 0x80n << 7k` and fall into the next block.  The tenth block accepts
only `y < 2n` and otherwise throws an overflow error. -/
def varintLoop (bytes : List Nat) (cursor limit : Int) (k : Nat) (v : Nat) :
    Except Err (Nat × Int) :=
  if _h : 9 ≤ k then
    match getB bytes (cursor + 9) with
    | none => .error "TypeError"
    | some y =>
      let v1 := v ||| (y <<< 63)
      if y < 2 then
        if limit < cursor + 10 then .error "Advancing cursor out of bounds"
        else .ok (v1, cursor + 10)
      else .error "Overflow"
  else
    match getB bytes (cursor + (k : Int)) with
    | none => .error "TypeError"
    | some y =>
      let v1 := v ||| (y <<< (7 * k))
      if y < 128 then
        if limit < cursor + ((k : Int) + 1) then
          .error "Advancing cursor out of bounds"
        else .ok (v1, cursor + ((k : Int) + 1))
      else varintLoop bytes cursor limit (k + 1) (v1 - (128 <<< (7 * k)))
termination_by 9 - k

/-- `BinaryReader.Varint` (src/reader.ts lines 352-432): run the ten-byte
loop from the cursor and apply the signed or unsigned 64-bit view. -/
def BinaryReader.Varint (r : BinaryReader) (s : Bool) :
    Except Err (Int × BinaryReader) :=
  match varintLoop r.bytes r.cursor r.limit 0 0 with
  | .error e => .error e
  | .ok (v, c) => .ok (signView v s, { r with cursor := c })

/-- `BinaryReader.NextField` (src/reader.ts lines 60-90): stop at the end
of the block or of the current framed message; otherwise decode a tag
varint, split it, and validate the wire type.  The source validity test is
`type != VARINT && type != FIXED32 && type != FIXED64 && type != DELIMITED
&& type == (START_GROUP || END_GROUP)`; the JS expression
`START_GROUP || END_GROUP` short-circuits to `START_GROUP` (3), so only
wire type 3 is ever rejected. -/
def BinaryReader.NextField (r : BinaryReader) :
    Except Err (Bool × BinaryReader) :=
  if r.limit ≤ r.cursor then .ok (false, r)
  else if r.cursor = r.length then .ok (false, r)
  else
    match BinaryReader.Varint32 r with
    | .error e => .error e
    | .ok (tag, r1) =>
      let field := jsShrS tag 3
      let type := jsAnd tag 7
      if type ≠ WireType.VARINT ∧ type ≠ WireType.FIXED32 ∧
          type ≠ WireType.FIXED64 ∧ type ≠ WireType.DELIMITED ∧
          type = WireType.START_GROUP then
        .error "Invalid wire type"
      else .ok (true, { r1 with nextField := some field, nextWireType := some type })

/-- `BinaryReader.Bool` (src/reader.ts lines 631-636): on wire type VARINT
return the truthiness of `bytes[this.cursor++]`; the cursor is incremented
directly, without `advance`, so there is no bounds check (an undefined
read is falsy). -/
def BinaryReader.Bool (r : BinaryReader) :
    Except Err (Bool × BinaryReader) :=
  if r.nextWireType = some WireType.VARINT then
    .ok (decide ((getB r.bytes r.cursor).getD 0 ≠ 0),
      { r with cursor := r.cursor + 1 })
  else .error "Bool type never"

/-- `BinaryReader.Enum` (src/reader.ts lines 641-646). -/
def BinaryReader.Enum (r : BinaryReader) :
    Except Err (Int × BinaryReader) :=
  if r.nextWireType = some WireType.VARINT then BinaryReader.Varint32 r
  else .error "Enum type never"

/-- `BinaryReader.Sint32` (src/reader.ts lines 477-483):
`z = Varint32(); (z >>> 1) ^ -(z & 1)` with the 32-bit JS operators. -/
def BinaryReader.Sint32 (r : BinaryReader) :
    Except Err (Int × BinaryReader) :=
  if r.nextWireType = some WireType.VARINT then
    match BinaryReader.Varint32 r with
    | .error e => .error e
    | .ok (z, r1) => .ok (jsXor (jsShrU z 1) (-(jsAnd z 1)), r1)
  else .error "Sint32 type never"

/-- `BinaryReader.Sint64` (src/reader.ts lines 488-494):
`z = Varint(false); (z >> 1n) ^ -(((z << 63n) >> 63n) & 1n)`.  BigInt
shifts are exact, so `(z << 63n) >> 63n` is `z`; `z >> 1n` is floor
division and `& 1n` is `emod 2`. -/
def BinaryReader.Sint64 (r : BinaryReader) :
    Except Err (Int × BinaryReader) :=
  if r.nextWireType = some WireType.VARINT then
    match BinaryReader.Varint r false with
    | .error e => .error e
    | .ok (z, r1) => .ok (Int.xor (Int.ediv z 2) (-(Int.land z 1)), r1)
  else .error "Sint64 type never"

/-- `BinaryReader.Fixed32` (src/reader.ts lines 499-510): four bytes
little-endian combined with the 32-bit JS operators (the result is a
signed int32), then `advance(4)`.  Out-of-range reads contribute 0 and the
`advance` throws in any state with `end <= bytes.length`. -/
def BinaryReader.Fixed32 (r : BinaryReader) :
    Except Err (Int × BinaryReader) :=
  if r.nextWireType = some WireType.FIXED32 then
    let b0 : Int := ((getB r.bytes r.cursor).getD 0 : Nat)
    let b1 : Int := ((getB r.bytes (r.cursor + 1)).getD 0 : Nat)
    let b2 : Int := ((getB r.bytes (r.cursor + 2)).getD 0 : Nat)
    let b3 : Int := ((getB r.bytes (r.cursor + 3)).getD 0 : Nat)
    let v := jsOr (jsOr (jsOr (jsShl b0 0) (jsShl b1 8)) (jsShl b2 16)) (jsShl b3 24)
    match BinaryReader.advance r 4 with
    | .error e => .error e
    | .ok r4 => .ok (v, r4)
  else .error "Fixed32 type never"

/-- `BinaryReader.Fixed64` (src/reader.ts lines 525-542): two little-endian
int32 groups `low` and `high`, each followed by `advance(4)`, combined as
`BigInt(high * 2^32 + (low >>> 0))` (`high` is signed). -/
def BinaryReader.Fixed64 (r : BinaryReader) :
    Except Err (Int × BinaryReader) :=
  if r.nextWireType = some WireType.FIXED64 then
    let b0 : Int := ((getB r.bytes r.cursor).getD 0 : Nat)
    let b1 : Int := ((getB r.bytes (r.cursor + 1)).getD 0 : Nat)
    let b2 : Int := ((getB r.bytes (r.cursor + 2)).getD 0 : Nat)
    let b3 : Int := ((getB r.bytes (r.cursor + 3)).getD 0 : Nat)
    let low := jsOr (jsOr (jsOr (jsShl b0 0) (jsShl b1 8)) (jsShl b2 16)) (jsShl b3 24)
    match BinaryReader.advance r 4 with
    | .error e => .error e
    | .ok r4 =>
      let c0 : Int := ((getB r4.bytes r4.cursor).getD 0 : Nat)
      let c1 : Int := ((getB r4.bytes (r4.cursor + 1)).getD 0 : Nat)
      let c2 : Int := ((getB r4.bytes (r4.cursor + 2)).getD 0 : Nat)
      let c3 : Int := ((getB r4.bytes (r4.cursor + 3)).getD 0 : Nat)
      let high := jsOr (jsOr (jsOr (jsShl c0 0) (jsShl c1 8)) (jsShl c2 16)) (jsShl c3 24)
      match BinaryReader.advance r4 4 with
      | .error e => .error e
      | .ok r8 => .ok (high * 2 ^ 32 + toUint32 low, r8)
  else .error "Fixed64 type never"

/-- Values produced by the reader primitives as stored into a decoded map
entry.  Floating-point reconstruction (src/reader.ts `Float`/`Double`
lines 557-626) is kept as the raw little-endian bit groups read from the
stream: the numeric IEEE-754 reconstruction is host floating point and no
claim below depends on it, while the cursor movement (4 and 8 bytes) is
modelled exactly. -/
inductive ReadVal where
  | num (n : Int)
  | big (n : Int)
  | bool (b : Bool)
  | str (codeUnits : List Int)
  | bytes (bs : List Nat)
  | float (bits : Int)
  | double (bitsLow bitsHigh : Int)
  | msg
deriving DecidableEq

/-- `BinaryReader.Float` (src/reader.ts lines 557-587): on wire type
FIXED32 read the fixed32 group (via `Fixed32`, which advances 4) and
reconstruct the IEEE-754 value; the value is kept as the raw bits. -/
def BinaryReader.Float (r : BinaryReader) :
    Except Err (ReadVal × BinaryReader) :=
  if r.nextWireType = some WireType.FIXED32 then
    match BinaryReader.Fixed32 r with
    | .error e => .error e
    | .ok (flt, r1) => .ok (.float flt, r1)
  else .error "Float type never"

/-- `BinaryReader.Double` (src/reader.ts lines 592-626): on wire type
FIXED64 read two little-endian int32 groups, each followed by
`advance(4)`, and reconstruct the IEEE-754 value; the value is kept as
the raw bit groups. -/
def BinaryReader.Double (r : BinaryReader) :
    Except Err (ReadVal × BinaryReader) :=
  if r.nextWireType = some WireType.FIXED64 then
    let b0 : Int := ((getB r.bytes r.cursor).getD 0 : Nat)
    let b1 : Int := ((getB r.bytes (r.cursor + 1)).getD 0 : Nat)
    let b2 : Int := ((getB r.bytes (r.cursor + 2)).getD 0 : Nat)
    let b3 : Int := ((getB r.bytes (r.cursor + 3)).getD 0 : Nat)
    let bitsLow := jsOr (jsOr (jsOr (jsShl b0 0) (jsShl b1 8)) (jsShl b2 16)) (jsShl b3 24)
    match BinaryReader.advance r 4 with
    | .error e => .error e
    | .ok r4 =>
      let c0 : Int := ((getB r4.bytes r4.cursor).getD 0 : Nat)
      let c1 : Int := ((getB r4.bytes (r4.cursor + 1)).getD 0 : Nat)
      let c2 : Int := ((getB r4.bytes (r4.cursor + 2)).getD 0 : Nat)
      let c3 : Int := ((getB r4.bytes (r4.cursor + 3)).getD 0 : Nat)
      let bitsHigh := jsOr (jsOr (jsOr (jsShl c0 0) (jsShl c1 8)) (jsShl c2 16)) (jsShl c3 24)
      match BinaryReader.advance r4 4 with
      | .error e => .error e
      | .ok r8 => .ok (.double bitsLow bitsHigh, r8)
  else .error "Double type never"

/-- The UTF-8 decoding loop of `BinaryReader.String` (src/reader.ts lines
658-695): `while (cursor < end)` read `c = bytes[cursor++]` and dispatch
on its range; continuation-byte reads inside a branch use further
`bytes[cursor++]` (an undefined read contributes 0 through `& 63`); a
leading byte of 192..223 consumes 2 bytes, 224..239 consumes 3,
240..247 consumes 4 and pushes a surrogate pair, 128..191 and 248..255
push nothing.  An undefined leading read (cursor past the byte array but
below `end`) matches no range test and consumes 1. -/
def utf8Units (bytes : List Nat) (cursor stop : Int) (acc : List Int) :
    List Int × Int :=
  if _h : cursor < stop then
    match getB bytes cursor with
    | none => utf8Units bytes (cursor + 1) stop acc
    | some c =>
      if c < 128 then utf8Units bytes (cursor + 1) stop (acc ++ [(c : Int)])
      else if c < 192 then utf8Units bytes (cursor + 1) stop acc
      else if c < 224 then
        let u := jsOr (jsShl ((c &&& 31 : Nat) : Int) 6)
          (byteAnd (getB bytes (cursor + 1)) 63)
        utf8Units bytes (cursor + 2) stop (acc ++ [u])
      else if c < 240 then
        let u := jsOr (jsOr (jsShl ((c &&& 15 : Nat) : Int) 12)
          (jsShl (byteAnd (getB bytes (cursor + 1)) 63) 6))
          (byteAnd (getB bytes (cursor + 2)) 63)
        utf8Units bytes (cursor + 3) stop (acc ++ [u])
      else if c < 248 then
        let cp := jsOr (jsOr (jsOr (jsShl ((c &&& 7 : Nat) : Int) 18)
          (jsShl (byteAnd (getB bytes (cursor + 1)) 63) 12))
          (jsShl (byteAnd (getB bytes (cursor + 2)) 63) 6))
          (byteAnd (getB bytes (cursor + 3)) 63)
        let cp1 := cp - 0x10000
        utf8Units bytes (cursor + 4) stop
          (acc ++ [jsAnd (jsShrS cp1 10) 1023 + 0xd800, jsAnd cp1 1023 + 0xdc00])
      else utf8Units bytes (cursor + 1) stop acc
  else (acc, cursor)
termination_by (stop - cursor).toNat
decreasing_by all_goals omega

/-- `BinaryReader.String` (src/reader.ts lines 651-700): on wire type
DELIMITED read the length varint, check `0 <= l <= 2^52`, decode UTF-8
code units until the local end, and set the cursor to the loop cursor
(without any bounds check against `end`). -/
def BinaryReader.String (r : BinaryReader) :
    Except Err (List Int × BinaryReader) :=
  if r.nextWireType = some WireType.DELIMITED then
    match BinaryReader.Varint32 r with
    | .error e => .error e
    | .ok (l, r1) =>
      if l < 0 ∨ 2 ^ 52 < l then .error "String length too long"
      else
        let p := utf8Units r1.bytes r1.cursor (r1.cursor + l) []
        .ok (p.1, { r1 with cursor := p.2 })
  else .error "String type never"

/-- `Uint8Array.subarray(a, b)` on the byte list: both indices clamped to
`[0, length]`, empty when `b <= a`. -/
def subarrayView (bytes : List Nat) (a b : Int) : List Nat :=
  let n := bytes.length
  let lo := min (max a 0).toNat n
  let hi := min (max b 0).toNat n
  (bytes.drop lo).take (hi - lo)

/-- `BinaryReader.Bytes` (src/reader.ts lines 706-719): on wire type
DELIMITED read the length varint, check `0 <= l <= 2^52`, take the
subarray view of `l` bytes at the cursor and `advance(l)`. -/
def BinaryReader.Bytes (r : BinaryReader) :
    Except Err (List Nat × BinaryReader) :=
  if r.nextWireType = some WireType.DELIMITED then
    match BinaryReader.Varint32 r with
    | .error e => .error e
    | .ok (l, r1) =>
      if l < 0 ∨ 2 ^ 52 < l then .error "Invalid length"
      else
        let res := subarrayView r1.bytes r1.cursor (r1.cursor + l)
        match BinaryReader.advance r1 l with
        | .error e => .error e
        | .ok r2 => .ok (res, r2)
  else .error "Bytes type never"

/-- `BinaryReader.Message` (src/reader.ts lines 122-140): on wire type
DELIMITED save `end`, read the length varint, set `end := cursor + l`,
run the embedded deserializer `f` on the reader, then unconditionally set
`cursor := cursor + l` and restore `end`.  The deserializer is modelled as
an arbitrary state transformer (a thrown error propagates without any
restoration, as in the source). -/
def BinaryReader.Message (r : BinaryReader)
    (f : BinaryReader → Except Err BinaryReader) :
    Except Err BinaryReader :=
  if r.nextWireType = some WireType.DELIMITED then
    let oEnd := r.limit
    match BinaryReader.Varint32 r with
    | .error e => .error e
    | .ok (l, r1) =>
      let nEnd := r1.cursor + l
      match f { r1 with limit := nEnd } with
      | .error e => .error e
      | .ok rm => .ok { rm with cursor := nEnd, limit := oEnd }
  else .error "Message type never"

/-- Field-type codes (src/constants.ts `FieldType`): INVALID = 0 through
SINT64 = 18, in declaration order. -/
def FieldType.DOUBLE : Nat := 1

/-- Field type FLOAT = 2. -/
def FieldType.FLOAT : Nat := 2

/-- Field type INT64 = 3. -/
def FieldType.INT64 : Nat := 3

/-- Field type UINT64 = 4. -/
def FieldType.UINT64 : Nat := 4

/-- Field type INT32 = 5. -/
def FieldType.INT32 : Nat := 5

/-- Field type FIXED64 = 6. -/
def FieldType.FIXED64 : Nat := 6

/-- Field type FIXED32 = 7. -/
def FieldType.FIXED32 : Nat := 7

/-- Field type BOOL = 8. -/
def FieldType.BOOL : Nat := 8

/-- Field type STRING = 9. -/
def FieldType.STRING : Nat := 9

/-- Field type MESSAGE = 11. -/
def FieldType.MESSAGE : Nat := 11

/-- Field type BYTES = 12. -/
def FieldType.BYTES : Nat := 12

/-- Field type UINT32 = 13. -/
def FieldType.UINT32 : Nat := 13

/-- Field type ENUM = 14. -/
def FieldType.ENUM : Nat := 14

/-- Field type SFIXED32 = 15. -/
def FieldType.SFIXED32 : Nat := 15

/-- Field type SFIXED64 = 16. -/
def FieldType.SFIXED64 : Nat := 16

/-- Field type SINT32 = 17. -/
def FieldType.SINT32 : Nat := 17

/-- Field type SINT64 = 18. -/
def FieldType.SINT64 : Nat := 18

/-- The map-key switch of `BinaryReader.Map` (src/reader.ts lines 157-199):
dispatch on the declared key field type, presetting `nextWireType` in the
cases that do so in the source; unknown key types throw. -/
def BinaryReader.mapKey (r : BinaryReader) (kFT : Nat) :
    Except Err (ReadVal × BinaryReader) :=
  if kFT = FieldType.INT64 then
    match BinaryReader.Varint r true with
    | .error e => .error e
    | .ok (v, r1) => .ok (.big v, r1)
  else if kFT = FieldType.UINT64 then
    match BinaryReader.Varint r false with
    | .error e => .error e
    | .ok (v, r1) => .ok (.big v, r1)
  else if kFT = FieldType.INT32 ∨ kFT = FieldType.UINT32 then
    match BinaryReader.Varint32 r with
    | .error e => .error e
    | .ok (v, r1) => .ok (.num v, r1)
  else if kFT = FieldType.FIXED64 ∨ kFT = FieldType.SFIXED64 then
    match BinaryReader.Fixed64 { r with nextWireType := some WireType.FIXED64 } with
    | .error e => .error e
    | .ok (v, r1) => .ok (.big v, r1)
  else if kFT = FieldType.STRING then
    match BinaryReader.String r with
    | .error e => .error e
    | .ok (v, r1) => .ok (.str v, r1)
  else if kFT = FieldType.FIXED32 ∨ kFT = FieldType.SFIXED32 then
    match BinaryReader.Fixed32 { r with nextWireType := some WireType.FIXED32 } with
    | .error e => .error e
    | .ok (v, r1) => .ok (.num v, r1)
  else if kFT = FieldType.BOOL then
    match BinaryReader.Bool { r with nextWireType := some WireType.VARINT } with
    | .error e => .error e
    | .ok (v, r1) => .ok (.bool v, r1)
  else if kFT = FieldType.ENUM then
    match BinaryReader.Enum { r with nextWireType := some WireType.VARINT } with
    | .error e => .error e
    | .ok (v, r1) => .ok (.num v, r1)
  else if kFT = FieldType.SINT32 then
    match BinaryReader.Sint32 { r with nextWireType := some WireType.VARINT } with
    | .error e => .error e
    | .ok (v, r1) => .ok (.num v, r1)
  else if kFT = FieldType.SINT64 then
    match BinaryReader.Sint64 { r with nextWireType := some WireType.VARINT } with
    | .error e => .error e
    | .ok (v, r1) => .ok (.big v, r1)
  else .error "Invalid FieldType (map key)"

/-- The map-value switch of `BinaryReader.Map` (src/reader.ts lines
204-263): dispatch on the declared value field type; the MESSAGE case
skips a varint and runs the embedded deserializer only when a message
object is supplied, leaving the value unset otherwise; unknown value
types throw. -/
def BinaryReader.mapValue (r : BinaryReader) (vFT : Nat)
    (fm : Option (BinaryReader → Except Err BinaryReader)) :
    Except Err (Option ReadVal × BinaryReader) :=
  if vFT = FieldType.DOUBLE then
    match BinaryReader.Double { r with nextWireType := some WireType.FIXED64 } with
    | .error e => .error e
    | .ok (v, r1) => .ok (some v, r1)
  else if vFT = FieldType.FLOAT then
    match BinaryReader.Float { r with nextWireType := some WireType.FIXED32 } with
    | .error e => .error e
    | .ok (v, r1) => .ok (some v, r1)
  else if vFT = FieldType.INT64 then
    match BinaryReader.Varint r true with
    | .error e => .error e
    | .ok (v, r1) => .ok (some (.big v), r1)
  else if vFT = FieldType.UINT64 then
    match BinaryReader.Varint r false with
    | .error e => .error e
    | .ok (v, r1) => .ok (some (.big v), r1)
  else if vFT = FieldType.INT32 ∨ vFT = FieldType.UINT32 then
    match BinaryReader.Varint32 r with
    | .error e => .error e
    | .ok (v, r1) => .ok (some (.num v), r1)
  else if vFT = FieldType.FIXED64 ∨ vFT = FieldType.SFIXED64 then
    match BinaryReader.Fixed64 { r with nextWireType := some WireType.FIXED64 } with
    | .error e => .error e
    | .ok (v, r1) => .ok (some (.big v), r1)
  else if vFT = FieldType.BOOL then
    match BinaryReader.Bool { r with nextWireType := some WireType.VARINT } with
    | .error e => .error e
    | .ok (v, r1) => .ok (some (.bool v), r1)
  else if vFT = FieldType.MESSAGE then
    match fm with
    | none => .ok (none, r)
    | some f =>
      match BinaryReader.Varint32 r with
      | .error e => .error e
      | .ok (_, r1) =>
        match f r1 with
        | .error e => .error e
        | .ok r2 => .ok (some .msg, r2)
  else if vFT = FieldType.BYTES then
    match BinaryReader.Bytes r with
    | .error e => .error e
    | .ok (v, r1) => .ok (some (.bytes v), r1)
  else if vFT = FieldType.STRING then
    match BinaryReader.String r with
    | .error e => .error e
    | .ok (v, r1) => .ok (some (.str v), r1)
  else if vFT = FieldType.ENUM then
    match BinaryReader.Enum { r with nextWireType := some WireType.VARINT } with
    | .error e => .error e
    | .ok (v, r1) => .ok (some (.num v), r1)
  else if vFT = FieldType.FIXED32 ∨ vFT = FieldType.SFIXED32 then
    match BinaryReader.Fixed32 { r with nextWireType := some WireType.FIXED32 } with
    | .error e => .error e
    | .ok (v, r1) => .ok (some (.num v), r1)
  else if vFT = FieldType.SINT32 then
    match BinaryReader.Sint32 { r with nextWireType := some WireType.VARINT } with
    | .error e => .error e
    | .ok (v, r1) => .ok (some (.num v), r1)
  else if vFT = FieldType.SINT64 then
    match BinaryReader.Sint64 { r with nextWireType := some WireType.VARINT } with
    | .error e => .error e
    | .ok (v, r1) => .ok (some (.big v), r1)
  else .error "Invalid field type for map value"

/-- The body of `BinaryReader.Map` between the `end` mutation and its
restoration (src/reader.ts lines 152-263): skip the key tag varint, read
the key, skip the value tag varint, read the value. -/
def BinaryReader.mapBody (r : BinaryReader) (kFT vFT : Nat)
    (fm : Option (BinaryReader → Except Err BinaryReader)) :
    Except Err ((ReadVal × Option ReadVal) × BinaryReader) :=
  match BinaryReader.Varint32 r with
  | .error e => .error e
  | .ok (_, rk0) =>
    match BinaryReader.mapKey rk0 kFT with
    | .error e => .error e
    | .ok (k, rk) =>
      match BinaryReader.Varint32 rk with
      | .error e => .error e
      | .ok (_, rv0) =>
        match BinaryReader.mapValue rv0 vFT fm with
        | .error e => .error e
        | .ok (v, rv) => .ok ((k, v), rv)

/-- `BinaryReader.Map` (src/reader.ts lines 145-271): on wire type
DELIMITED save `end`, read the entry length varint, set
`end := cursor + l`, run the entry body, then restore `end` and set
`cursor` to the entry end. -/
def BinaryReader.Map (r : BinaryReader) (kFT vFT : Nat)
    (fm : Option (BinaryReader → Except Err BinaryReader)) :
    Except Err ((ReadVal × Option ReadVal) × BinaryReader) :=
  if r.nextWireType = some WireType.DELIMITED then
    let oEnd := r.limit
    match BinaryReader.Varint32 r with
    | .error e => .error e
    | .ok (l, r1) =>
      let nEnd := r1.cursor + l
      match BinaryReader.mapBody { r1 with limit := nEnd } kFT vFT fm with
      | .error e => .error e
      | .ok (kv, rm) => .ok (kv, { rm with limit := oEnd, cursor := nEnd })
  else .error "Map type never"

/-- Denotation of a byte list as one base-128 varint covering the whole
list: little-endian 7-bit groups, high bit of each byte the continuation
bit; `none` when the list is empty or its final byte still has the
continuation bit set.  This is the specification-side reading of the
phrase "the varint it emits encodes x" and is compared with the byte
lists the encoder produces. -/
def varintValue : List Nat → Option Nat
  | [] => none
  | [b] => if b < 128 then some b else none
  | b :: rest => if 128 ≤ b then (varintValue rest).map (fun r => b % 128 + 128 * r) else none

deriving instance DecidableEq for Except

/-!
Claim theorems, preceded by the arithmetic toolbox they use.
-/

/-- C2: the claim says `Bytes` appends every byte of the input verbatim,
growing the buffer by the input length.  In the source
`this.buffer.push.apply(bytes)` calls `push` with the `Uint8Array` as its
`this` argument and no elements; `push` then sets the read-only `length`
of that typed array and throws a TypeError.  On the empty buffer and the
input `[1, 2, 3]` the operation throws instead of appending the three
bytes: the buffer never grows and the call never returns normally. -/
theorem bytes_throws_type_error :
    BinaryEncoder.Bytes [] [1, 2, 3] = .error "TypeError" ∧
      ∀ out, BinaryEncoder.Bytes [] [1, 2, 3] ≠ .ok out := by
  constructor
  · rfl
  · intro out h
    exact absurd h (by simp [BinaryEncoder.Bytes])

/-- C4: the claim says `Varint32` of a negative 32-bit integer appends the
canonical ten-byte sign-extended varint, every element an octet, the last
byte `0x01`.  The source loop runs only four times and then pushes the
remaining signed accumulator raw: for `-1` the buffer receives the six
elements `[255, 255, 255, 255, -1, 1]` — six elements, not ten, and the
fifth is negative, not an octet. -/
theorem varint32_negative_six_elements :
    BinaryEncoder.Varint32 [] (-1) = [255, 255, 255, 255, -1, 1] ∧
      (BinaryEncoder.Varint32 [] (-1)).length = 6 := by
  constructor
  · decide
  · decide

/-- C7: the claim says `Sint64` raises a range violation on every value
outside `[-2^63, 2^63)` and never silently returns.  On the out-of-range
input `2^63` the source falls through its range test and returns normally
with the buffer unchanged and no error. -/
theorem sint64_silently_drops :
    BinaryWriter.Sint64 ⟨[]⟩ 1 (2 ^ 63) = .ok ⟨[]⟩ := by
  decide

/-- C6: the claim says `Header` parses the five prefix bytes as the full
big-endian value `b0 * 2^32 + ... + b4`, the top byte contributing, and
returns false only for a parsed length of zero.  The source accumulates
with the 32-bit JS shift `l << 8`, which discards the top byte: on the
prefix `01 00 00 00 00` (claimed value `2^32`, nonzero) it computes 0 and
returns false, reporting end of stream. -/
theorem header_discards_top_byte :
    BinaryReader.Header (mkReader [1, 0, 0, 0, 0]) =
      .ok (false, ⟨[1, 0, 0, 0, 0], 5, 5, 0, none, none⟩) ∧
      (1 * 2 ^ 32 + 0 * 2 ^ 24 + 0 * 2 ^ 16 + 0 * 2 ^ 8 + 0 : Int) ≠ 0 := by
  constructor
  · decide
  · decide

/-- C3: the claim says `NextField` throws whenever the decoded wire type
is 3, 4, 6 or 7, and succeeds exactly on `{0, 1, 2, 5}`.  The source
validity test compares against `START_GROUP || END_GROUP`, which
short-circuits to 3, so only wire type 3 is rejected: on the framed input
`00 00 00 00 01 0C` the tag `0x0C` (field 1, wire type 4 = END_GROUP) is
accepted and stored instead of raising. -/
theorem nextfield_accepts_end_group :
    BinaryReader.Header (mkReader [0, 0, 0, 0, 1, 12]) =
      .ok (true, ⟨[0, 0, 0, 0, 1, 12], 5, 6, 6, none, none⟩) ∧
    BinaryReader.NextField ⟨[0, 0, 0, 0, 1, 12], 5, 6, 6, none, none⟩ =
      .ok (true, ⟨[0, 0, 0, 0, 1, 12], 6, 6, 6, some 1, some 4⟩) := by
  constructor
  · decide
  · decide

/-- C5: the claim says every successful read, `Bool` included, leaves the
cursor at most `end`.  On the framed input `00 00 00 00 01 08` the reads
`Header`, `NextField` and `Bool` all succeed, yet `Bool` increments the
cursor without the `advance` bounds check and leaves it at 7, strictly
beyond `end = 6`. -/
theorem bool_succeeds_past_end :
    BinaryReader.Header (mkReader [0, 0, 0, 0, 1, 8]) =
      .ok (true, ⟨[0, 0, 0, 0, 1, 8], 5, 6, 6, none, none⟩) ∧
    BinaryReader.NextField ⟨[0, 0, 0, 0, 1, 8], 5, 6, 6, none, none⟩ =
      .ok (true, ⟨[0, 0, 0, 0, 1, 8], 6, 6, 6, some 1, some 0⟩) ∧
    BinaryReader.Bool ⟨[0, 0, 0, 0, 1, 8], 6, 6, 6, some 1, some 0⟩ =
      .ok (false, ⟨[0, 0, 0, 0, 1, 8], 7, 6, 6, some 1, some 0⟩) ∧
    (⟨[0, 0, 0, 0, 1, 8], 7, 6, 6, some 1, some 0⟩ : BinaryReader).limit <
      (⟨[0, 0, 0, 0, 1, 8], 7, 6, 6, some 1, some 0⟩ : BinaryReader).cursor := by
  refine ⟨?_, ?_, ?_, ?_⟩ <;> decide

/-- C9: on a DELIMITED field, with `c` the cursor just after the length
varint and `L` the decoded length, `Message` runs the embedded
deserializer on a reader whose `end` is `c + L`, and on success the
returned reader has `cursor = c + L` and the original `end`, regardless of
how few bytes the deserializer consumed; `Map` does the same around its
entry body. -/
theorem delimited_descent_restores (r : BinaryReader) (l : Int)
    (r1 : BinaryReader)
    (hw : r.nextWireType = some WireType.DELIMITED)
    (hv : BinaryReader.Varint32 r = .ok (l, r1)) :
    (∀ f r2, BinaryReader.Message r f = .ok r2 →
        (∃ rm, f { r1 with limit := r1.cursor + l } = .ok rm ∧
            r2 = { rm with cursor := r1.cursor + l, limit := r.limit }) ∧
          r2.cursor = r1.cursor + l ∧ r2.limit = r.limit) ∧
    (∀ kFT vFT fm kv r2, BinaryReader.Map r kFT vFT fm = .ok (kv, r2) →
        (∃ rm, BinaryReader.mapBody { r1 with limit := r1.cursor + l } kFT vFT fm =
              .ok (kv, rm) ∧
            r2 = { rm with limit := r.limit, cursor := r1.cursor + l }) ∧
          r2.cursor = r1.cursor + l ∧ r2.limit = r.limit) := by
  constructor
  · intro f r2 h
    simp only [BinaryReader.Message, hw, if_pos, hv] at h
    rcases hf : f { r1 with limit := r1.cursor + l } with e | rm <;> rw [hf] at h
    · exact absurd h (by simp)
    · simp only [Except.ok.injEq] at h
      subst h
      exact ⟨⟨rm, rfl, rfl⟩, by simp, by simp⟩
  · intro kFT vFT fm kv r2 h
    simp only [BinaryReader.Map, hw, if_pos, hv] at h
    rcases hb : BinaryReader.mapBody { r1 with limit := r1.cursor + l } kFT vFT fm
      with e | kvrm <;> rw [hb] at h
    · exact absurd h (by simp)
    · obtain ⟨kv', rm⟩ := kvrm
      simp only [Except.ok.injEq, Prod.mk.injEq] at h
      obtain ⟨rfl, rfl⟩ := h
      exact ⟨⟨rm, rfl, rfl⟩, by simp, by simp⟩

/-- Witness for C9: a concrete DELIMITED map entry `04 08 01 10 01`
(length 4, key `bool true`, value `bool true`), decoded both through
`Message` with an identity deserializer and through `Map`: the cursor
lands on `c + L = 1 + 4` and `end` is restored to 5 in both cases. -/
theorem delimited_descent_restores_witness :
    BinaryReader.Message ⟨[4, 8, 1, 16, 1], 0, 5, 0, none, some 2⟩
        (fun s => .ok s) =
      .ok ⟨[4, 8, 1, 16, 1], 5, 5, 0, none, some 2⟩ ∧
    (⟨[4, 8, 1, 16, 1], 5, 5, 0, none, some 2⟩ : BinaryReader).cursor = 1 + 4 ∧
    (⟨[4, 8, 1, 16, 1], 5, 5, 0, none, some 2⟩ : BinaryReader).limit = 5 ∧
    BinaryReader.Map ⟨[4, 8, 1, 16, 1], 0, 5, 0, none, some 2⟩
        FieldType.BOOL FieldType.BOOL none =
      .ok ((.bool true, some (.bool true)),
        ⟨[4, 8, 1, 16, 1], 5, 5, 0, none, some 0⟩) ∧
    (⟨[4, 8, 1, 16, 1], 5, 5, 0, none, some 0⟩ : BinaryReader).cursor = 1 + 4 ∧
    (⟨[4, 8, 1, 16, 1], 5, 5, 0, none, some 0⟩ : BinaryReader).limit = 5 := by
  have hv : BinaryReader.Varint32 ⟨[4, 8, 1, 16, 1], 0, 5, 0, none, some 2⟩ =
      .ok (4, ⟨[4, 8, 1, 16, 1], 1, 5, 0, none, some 2⟩) := by decide
  have h := delimited_descent_restores ⟨[4, 8, 1, 16, 1], 0, 5, 0, none, some 2⟩
    4 ⟨[4, 8, 1, 16, 1], 1, 5, 0, none, some 2⟩ rfl hv
  have hm : BinaryReader.Message ⟨[4, 8, 1, 16, 1], 0, 5, 0, none, some 2⟩
      (fun s => .ok s) = .ok ⟨[4, 8, 1, 16, 1], 5, 5, 0, none, some 2⟩ := by
    decide
  have hmap : BinaryReader.Map ⟨[4, 8, 1, 16, 1], 0, 5, 0, none, some 2⟩
      FieldType.BOOL FieldType.BOOL none =
      .ok ((.bool true, some (.bool true)),
        ⟨[4, 8, 1, 16, 1], 5, 5, 0, none, some 0⟩) := by decide
  refine ⟨hm, ?_, ?_, hmap, ?_, ?_⟩
  · exact (h.1 (fun s => .ok s) _ hm).2.1
  · exact (h.1 (fun s => .ok s) _ hm).2.2
  · exact (h.2 FieldType.BOOL FieldType.BOOL none _ _ hmap).2.1
  · exact (h.2 FieldType.BOOL FieldType.BOOL none _ _ hmap).2.2

/-- Disjoint bitwise or is addition: a value below `2 ^ m` or-ed with a
left shift by `m` places. -/
theorem lor_shl_add {a : Nat} (b m : Nat) (h : a < 2 ^ m) :
    a ||| (b <<< m) = 2 ^ m * b + a := by
  rw [Nat.shiftLeft_eq, Nat.mul_comm b, Nat.lor_comm]
  exact (Nat.mul_add_lt_is_or h b).symm

/-- Masking with `0x7f` is reduction modulo 128. -/
theorem and_127_eq_mod (n : Nat) : n &&& 127 = n % 128 := by
  have h := Nat.and_pow_two_sub_one_eq_mod n 7
  norm_num at h
  exact h

/-- Setting the continuation bit on a 7-bit value adds 128. -/
theorem or_128_eq_add {a : Nat} (h : a < 128) : a ||| 128 = a + 128 := by
  have h2 := lor_shl_add (a := a) 1 7 (by omega)
  rw [show (1 <<< 7 : Nat) = 128 from rfl] at h2
  omega

/-- Equation of `varintValue` on a single byte. -/
theorem varintValue_single (b : Nat) :
    varintValue [b] = if b < 128 then some b else none := rfl

/-- Equation of `varintValue` on two or more bytes. -/
theorem varintValue_cons (b c : Nat) (t : List Nat) :
    varintValue (b :: c :: t) =
      if 128 ≤ b then (varintValue (c :: t)).map (fun r => b % 128 + 128 * r)
      else none := rfl

/-- The loop of `UnsignedVarint32` always produces at least one byte. -/
theorem uvarint32Bytes_ne_nil (v : Nat) : uvarint32Bytes v ≠ [] := by
  rw [uvarint32Bytes]
  split <;> simp

/-- The byte list produced by the `UnsignedVarint32` loop is a terminated
varint denoting the input reduced modulo `2 ^ 32`. -/
theorem varintValue_uvarint32Bytes (v : Nat) :
    varintValue (uvarint32Bytes v) = some (v % 2 ^ 32) := by
  induction v using uvarint32Bytes.induct with
  | case1 v hv ih =>
    rw [uvarint32Bytes, if_pos hv]
    obtain ⟨c, t, hct⟩ : ∃ c t, uvarint32Bytes ((v % 2 ^ 32) >>> 7) = c :: t := by
      rcases hh : uvarint32Bytes ((v % 2 ^ 32) >>> 7) with _ | ⟨c, t⟩
      · exact absurd hh (uvarint32Bytes_ne_nil _)
      · exact ⟨c, t, rfl⟩
    rw [hct, varintValue_cons, ← hct, ih, if_pos]
    · rw [Option.map_some']
      rw [and_127_eq_mod, or_128_eq_add (by omega), Nat.shiftRight_eq_div_pow]
      norm_num
      omega
    · rw [and_127_eq_mod, or_128_eq_add (by omega)]
      omega
  | case2 v hv =>
    rw [uvarint32Bytes, if_neg hv, varintValue_single, if_pos (by omega),
      Nat.mod_eq_of_lt (by omega)]

/-- C10 (counterexample to the claim as stated): the claim says the
varint emitted by `Tag(f, w)` encodes `(f * 8 + w) % 2 ^ 32` for every
integral `f >= 1`.  The source computes `field * 8 + wireType` in JS
double arithmetic, which rounds to 53 significant bits: at `f = 2 ^ 60`,
`w = 5` the program computes `flDouble (2 ^ 63 + 5) = 2 ^ 63` and emits a
varint denoting `2 ^ 63 % 2 ^ 32 = 0`, while the claim requires
`(2 ^ 60 * 8 + 5) % 2 ^ 32 = 5`. -/
theorem tag_exact_encoding_counterexample :
    BinaryWriter.Tag ⟨[]⟩ (2 ^ 60) 5 =
        .ok ⟨(uvarint32Bytes (flDouble (2 ^ 60 * 8 + 5))).map Int.ofNat⟩ ∧
      flDouble (2 ^ 60 * 8 + 5) = 2 ^ 63 ∧
      varintValue (uvarint32Bytes (flDouble (2 ^ 60 * 8 + 5))) = some 0 ∧
      (2 ^ 60 * 8 + 5) % 2 ^ 32 = 5 ∧ (0 : Nat) ≠ 5 := by
  have hfl : flDouble (2 ^ 60 * 8 + 5) = 2 ^ 63 := by decide
  refine ⟨?_, hfl, ?_, by norm_num, by norm_num⟩
  · rw [BinaryWriter.Tag, if_pos (by norm_num)]
    rfl
  · rw [hfl, varintValue_uvarint32Bytes]
    norm_num

/-- C10 (amended): for every integral field number `f >= 1` and legal
wire type, `Tag` never raises and appends the varint of the
double-rounded sum `flDouble (f * 8 + w)` — the rounding the source JS
number arithmetic performs, the identity whenever `f * 8 + w < 2 ^ 53`;
the emitted byte list denotes `flDouble (f * 8 + w) % 2 ^ 32`.  For
`f < 2 ^ 29` the emitted tag equals `f * 8 + w` exactly, and for every
`f >= 2 ^ 29` it silently differs from `f * 8 + w`. -/
theorem tag_emits_rounded_tag_mod_two_pow_32 (f w : Nat) (buf : List Int)
    (hf : 1 ≤ f) (hw : w = 0 ∨ w = 1 ∨ w = 2 ∨ w = 5) :
    BinaryWriter.Tag ⟨buf⟩ f w =
        .ok ⟨buf ++ (uvarint32Bytes (flDouble (f * 8 + w))).map Int.ofNat⟩ ∧
      varintValue (uvarint32Bytes (flDouble (f * 8 + w))) =
        some (flDouble (f * 8 + w) % 2 ^ 32) ∧
      (f * 8 + w < 2 ^ 53 → flDouble (f * 8 + w) = f * 8 + w) ∧
      (f < 2 ^ 29 → flDouble (f * 8 + w) % 2 ^ 32 = f * 8 + w) ∧
      (2 ^ 29 ≤ f → flDouble (f * 8 + w) % 2 ^ 32 ≠ f * 8 + w) := by
  have hsmall : f * 8 + w < 2 ^ 53 → flDouble (f * 8 + w) = f * 8 + w := by
    intro hlt
    rw [flDouble, if_pos hlt]
  refine ⟨?_, varintValue_uvarint32Bytes _, hsmall, ?_, ?_⟩
  · rw [BinaryWriter.Tag, if_pos hf]
    rfl
  · intro hlt
    have hb : f * 8 + w < 2 ^ 32 := by
      rcases hw with rfl | rfl | rfl | rfl <;> omega
    rw [hsmall (by omega)]
    exact Nat.mod_eq_of_lt hb
  · intro hge
    have h2 : flDouble (f * 8 + w) % 2 ^ 32 < 2 ^ 32 := Nat.mod_lt _ (by norm_num)
    omega

/-- Witness for the amended C10: the exact side at `f = 1`, `w = 0`
(tag byte `08`) and the truncating side at `f = 2 ^ 29`, `w = 0`. -/
theorem tag_emits_rounded_tag_mod_two_pow_32_witness :
    (1 ≤ 1 ∧ BinaryWriter.Tag ⟨[]⟩ 1 0 =
        .ok ⟨[] ++ (uvarint32Bytes (flDouble (1 * 8 + 0))).map Int.ofNat⟩ ∧
      flDouble (1 * 8 + 0) % 2 ^ 32 = 1 * 8 + 0) ∧
    (1 ≤ 2 ^ 29 ∧ flDouble (2 ^ 29 * 8 + 0) % 2 ^ 32 ≠ 2 ^ 29 * 8 + 0) := by
  have h1 := tag_emits_rounded_tag_mod_two_pow_32 1 0 [] (by norm_num) (Or.inl rfl)
  have h2 := tag_emits_rounded_tag_mod_two_pow_32 (2 ^ 29) 0 [] (by norm_num) (Or.inl rfl)
  exact ⟨⟨by norm_num, h1.1, h1.2.2.2.1 (by norm_num)⟩,
    ⟨by norm_num, h2.2.2.2.2 (by norm_num)⟩⟩

/-- Folding the `Varint32` encoder over zero values appends one zero byte
per value. -/
theorem foldl_varint32_zeros (k : Nat) (buf : List Int) :
    (List.replicate k (0 : Int)).foldl BinaryEncoder.Varint32 buf =
      buf ++ List.replicate k 0 := by
  induction k generalizing buf with
  | zero => simp
  | succ k ih =>
    rw [List.replicate_succ, List.foldl_cons, ih]
    have h0 : BinaryEncoder.Varint32 buf 0 = buf ++ [0] := by
      rw [BinaryEncoder.Varint32, if_pos le_rfl]
      simp [BinaryEncoder.UnsignedVarint32, uvarint32Bytes]
    rw [h0, List.append_assoc]
    rfl

/-- The continuation-byte loop of `endDelimited` on length 128 produces
only the byte `0x80`: the terminating byte is never pushed. -/
theorem endDelimitedTmp_128 : endDelimitedTmp 128 = [128] := by
  rw [endDelimitedTmp, if_pos (by norm_num)]
  rw [endDelimitedTmp]
  norm_num
  exact ⟨by decide, by intro h; simp at h⟩

/-- C1: the claim says the varint spliced in by `endDelimited` is the
complete, well-terminated encoding of the payload length, also above 127.
The source loop pushes only continuation bytes and never the final byte:
closing a scope around a 128-byte payload (here `PackedInt32` of 128
zeros at field 1) splices the single byte `0x80` — an unterminated
varint, `varintValue [128] = none` — where the complete encoding of 128
is `0x80 0x01`. -/
theorem endDelimited_drops_terminator :
    BinaryWriter.PackedInt32 ⟨[]⟩ 1 (List.replicate 128 0) =
      .ok ⟨10 :: 128 :: List.replicate 128 (0 : Int)⟩ ∧
    varintValue [128] = none ∧ varintValue [128, 1] = some 128 := by
  refine ⟨?_, rfl, rfl⟩
  have htag : BinaryWriter.beginDelimited ⟨[]⟩ 1 = .ok (1, ⟨[10]⟩) := by
    rw [BinaryWriter.beginDelimited, BinaryWriter.Tag, if_pos (by norm_num)]
    rw [show flDouble (1 * 8 + 2) = 10 from rfl]
    simp [BinaryEncoder.UnsignedVarint32, uvarint32Bytes]
  have hfold : (List.replicate 128 (0 : Int)).foldl BinaryEncoder.Varint32
      ([10] : List Int) = 10 :: List.replicate 128 0 := by
    rw [foldl_varint32_zeros]
    rfl
  have hlen : ((10 : Int) :: List.replicate 128 (0 : Int)).length = 129 := by
    simp
  have hend : BinaryWriter.endDelimited ⟨10 :: List.replicate 128 (0 : Int)⟩ 1 =
      ⟨10 :: 128 :: List.replicate 128 0⟩ := by
    rw [BinaryWriter.endDelimited]
    simp only [hlen]
    norm_num
    rw [show Int.toNat 128 = 128 from rfl, endDelimitedTmp_128]
    simp
  simp only [BinaryWriter.PackedInt32, htag]
  rw [hfold, hend]

/-- The loop of `UnsignedVarint` always produces at least one byte. -/
theorem uvarintBytes_ne_nil (v : Nat) : uvarintBytes v ≠ [] := by
  rw [uvarintBytes]
  split <;> simp

/-- Reading at a cast index from cursor zero is list lookup. -/
theorem getB_zero_add (bytes : List Nat) (k : Nat) :
    getB bytes (0 + (k : Int)) = bytes[k]? := by
  simp [getB]

/-- One continuation-position step of the ten-byte varint loop, with the
byte at position `k` known. -/
theorem varintLoop_step (bytes : List Nat) (cursor limit : Int) (k : Nat)
    (v : Nat) (hk : k < 9) (y : Nat)
    (hy : getB bytes (cursor + (k : Int)) = some y) :
    varintLoop bytes cursor limit k v =
      if y < 128 then
        (if limit < cursor + ((k : Int) + 1) then
          .error "Advancing cursor out of bounds"
        else .ok (v ||| (y <<< (7 * k)), cursor + ((k : Int) + 1)))
      else
        varintLoop bytes cursor limit (k + 1)
          ((v ||| (y <<< (7 * k))) - (128 <<< (7 * k))) := by
  rw [varintLoop, dif_neg (by omega), hy]

/-- The tenth (final) step of the ten-byte varint loop, with the byte at
position 9 known. -/
theorem varintLoop_last (bytes : List Nat) (cursor limit : Int) (v : Nat)
    (y : Nat) (hy : getB bytes (cursor + 9) = some y) :
    varintLoop bytes cursor limit 9 v =
      if y < 2 then
        (if limit < cursor + 10 then
          .error "Advancing cursor out of bounds"
        else .ok (v ||| (y <<< 63), cursor + 10))
      else .error "Overflow" := by
  rw [varintLoop, dif_pos (by omega), hy]

/-- Decoding the bytes of `uvarintBytes n` with the reader varint loop,
generalized over the already-consumed prefix `pre` (of length `k`) and the
accumulator `v` (holding the bits below position `7 * k`): the loop
succeeds and returns `v + n <<< (7 * k)` with the cursor at the end. -/
theorem varintLoop_encode (n : Nat) :
    ∀ (k : Nat) (pre : List Nat) (v : Nat) (limit : Int),
      pre.length = k → k ≤ 9 → v < 2 ^ (7 * k) → n < 2 ^ (64 - 7 * k) →
      limit = ((k + (uvarintBytes n).length : Nat) : Int) →
      varintLoop (pre ++ uvarintBytes n) 0 limit k v =
        .ok (v + n <<< (7 * k), limit) := by
  induction n using uvarintBytes.induct with
  | case1 n hn ih =>
    intro k pre v limit hpre hk hv hsize hlimit
    have hbytes : uvarintBytes n = ((n &&& 127) ||| 128) :: uvarintBytes (n >>> 7) := by
      rw [uvarintBytes, if_pos hn]
    have hk9 : k < 9 := by
      by_contra hc
      have hke : k = 9 := by omega
      subst hke
      norm_num at hsize
      omega
    have ha_lt : n &&& 127 < 128 := by rw [and_127_eq_mod]; omega
    have hd_eq : (n &&& 127) ||| 128 = (n &&& 127) + 128 := or_128_eq_add ha_lt
    have hget : getB (pre ++ uvarintBytes n) (0 + (k : Int)) =
        some ((n &&& 127) ||| 128) := by
      rw [getB_zero_add, hbytes, List.getElem?_append_right (by omega), hpre]
      simp
    rw [varintLoop_step _ _ _ _ _ hk9 _ hget, if_neg (by omega)]
    have hacc : (v ||| (((n &&& 127) ||| 128) <<< (7 * k))) - (128 <<< (7 * k)) =
        2 ^ (7 * k) * (n &&& 127) + v := by
      rw [lor_shl_add _ _ hv, Nat.shiftLeft_eq, hd_eq, Nat.mul_add,
        Nat.mul_comm 128 (2 ^ (7 * k))]
      omega
    rw [hacc]
    have hlen1 : (uvarintBytes n).length = 1 + (uvarintBytes (n >>> 7)).length := by
      rw [hbytes]
      simp
      omega
    have hih := ih (k + 1) (pre ++ [(n &&& 127) ||| 128])
      (2 ^ (7 * k) * (n &&& 127) + v) limit
      (by simp [hpre])
      (by omega)
      (by
        have hp : (2 : Nat) ^ (7 * (k + 1)) = 2 ^ (7 * k) * 128 := by
          rw [show 7 * (k + 1) = 7 * k + 7 by ring, pow_add]
          norm_num
        calc 2 ^ (7 * k) * (n &&& 127) + v
            < 2 ^ (7 * k) * (n &&& 127) + 2 ^ (7 * k) := by omega
          _ = 2 ^ (7 * k) * ((n &&& 127) + 1) := by ring
          _ ≤ 2 ^ (7 * k) * 128 := Nat.mul_le_mul_left _ (by omega)
          _ = 2 ^ (7 * (k + 1)) := hp.symm)
      (by
        rw [Nat.shiftRight_eq_div_pow]
        refine (Nat.div_lt_iff_lt_mul (by norm_num : 0 < 2 ^ 7)).2 ?_
        calc n < 2 ^ (64 - 7 * k) := hsize
          _ = 2 ^ (64 - 7 * (k + 1)) * 2 ^ 7 := by
            rw [← pow_add]
            congr 1
            omega)
      (by
        rw [hlimit, hlen1]
        push_cast
        ring)
    rw [hbytes, List.append_cons, hih]
    have hval : 2 ^ (7 * k) * (n &&& 127) + v + (n >>> 7) <<< (7 * (k + 1)) =
        v + n <<< (7 * k) := by
      rw [Nat.shiftLeft_eq, Nat.shiftLeft_eq, Nat.shiftRight_eq_div_pow,
        and_127_eq_mod, show 7 * (k + 1) = 7 * k + 7 by ring, pow_add]
      obtain ⟨q, r, hqr, hr⟩ : ∃ q r, n = 128 * q + r ∧ r < 128 :=
        ⟨n / 128, n % 128, (Nat.div_add_mod n 128).symm, Nat.mod_lt _ (by norm_num)⟩
      subst hqr
      rw [Nat.mul_add_mod, Nat.mod_eq_of_lt hr,
        show (2 : Nat) ^ 7 = 128 by norm_num,
        Nat.mul_add_div (by norm_num : 0 < 128), Nat.div_eq_of_lt hr]
      ring
    rw [hval]
  | case2 n hn =>
    intro k pre v limit hpre hk hv hsize hlimit
    have hbytes : uvarintBytes n = [n] := by rw [uvarintBytes, if_neg hn]
    have hlen1 : (uvarintBytes n).length = 1 := by rw [hbytes]; rfl
    rcases Nat.lt_or_ge k 9 with hk9 | hk9
    · have hget : getB (pre ++ uvarintBytes n) (0 + (k : Int)) = some n := by
        rw [getB_zero_add, hbytes, List.getElem?_append_right (by omega), hpre]
        simp
      rw [varintLoop_step _ _ _ _ _ hk9 _ hget, if_pos (by omega),
        if_neg (by rw [hlimit, hlen1]; push_cast; omega)]
      have h1 : v ||| (n <<< (7 * k)) = v + n <<< (7 * k) := by
        rw [lor_shl_add _ _ hv, Nat.shiftLeft_eq]
        ring
      have h2 : (0 : Int) + ((k : Int) + 1) = limit := by
        rw [hlimit, hlen1]
        push_cast
        ring
      rw [h1, h2]
    · have hke : k = 9 := by omega
      subst hke
      norm_num at hsize
      have hget : getB (pre ++ uvarintBytes n) ((0 : Int) + 9) = some n := by
        have h9 : ((0 : Int) + 9) = (0 + ((9 : Nat) : Int)) := by norm_num
        rw [h9, getB_zero_add, hbytes, List.getElem?_append_right (by omega), hpre]
        simp
      rw [varintLoop_last _ _ _ _ _ hget]
      rw [if_pos (show n < 2 by omega)]
      rw [if_neg (show ¬ limit < 0 + 10 by rw [hlimit, hlen1]; push_cast; exact not_false)]
      have h1 : v ||| (n <<< 63) = v + n <<< (7 * 9) := by
        rw [show 7 * 9 = 63 by norm_num, lor_shl_add _ _
          (by norm_num at hv ⊢; exact hv : v < 2 ^ 63), Nat.shiftLeft_eq]
        ring
      have h2 : (0 : Int) + 10 = limit := by
        rw [hlimit, hlen1]
        norm_num
      rw [h1, h2]

/-- C8: for every `n` below `2 ^ 64`, encoding with the Encoder
`UnsignedVarint` and decoding the produced bytes with the Reader 64-bit
`Varint` in unsigned mode succeeds and yields exactly `n`, consuming the
whole encoding. -/
theorem unsigned_varint_roundtrip (n : Nat) (h : n < 2 ^ 64) :
    BinaryReader.Varint
        (mkReader ((BinaryEncoder.UnsignedVarint [] n).map Int.toNat)) false =
      .ok ((n : Int),
        { mkReader ((BinaryEncoder.UnsignedVarint [] n).map Int.toNat) with
            cursor := ((uvarintBytes n).length : Int) }) := by
  have hb : (BinaryEncoder.UnsignedVarint [] n).map Int.toNat = uvarintBytes n := by
    simp [BinaryEncoder.UnsignedVarint, List.map_map, Function.comp_def]
  rw [hb]
  have hloop := varintLoop_encode n 0 [] 0 (((uvarintBytes n).length : Nat) : Int)
    rfl (by norm_num) (by norm_num) (by simpa using h) (by norm_num)
  simp only [List.nil_append, Nat.mul_zero, Nat.shiftLeft_zero, Nat.zero_add] at hloop
  rw [BinaryReader.Varint]
  simp only [mkReader]
  rw [hloop]
  simp only [signView]
  norm_num [Nat.mod_eq_of_lt h]
  omega

/-- Witness for C8 at `n = 300` (encoding `AC 02`). -/
theorem unsigned_varint_roundtrip_witness :
    300 < 2 ^ 64 ∧
      BinaryReader.Varint
          (mkReader ((BinaryEncoder.UnsignedVarint [] 300).map Int.toNat)) false =
        .ok ((300 : Int),
          { mkReader ((BinaryEncoder.UnsignedVarint [] 300).map Int.toNat) with
              cursor := ((uvarintBytes 300).length : Int) }) :=
  ⟨by norm_num, unsigned_varint_roundtrip 300 (by norm_num)⟩
